import Mathlib

/-!
# Verification of the `jsonhal` envelope (`jsonhal.go`)

Shallow embedding of the HAL envelope type `Hal` and its methods
(`SetLink`, `DeleteLink`, `GetLink`, `SetEmbedded`, `GetEmbedded`,
`DeleteEmbedded`, `CountEmbedded`, `decodeHook`, `DecodeEmbedded`).

Go maps are modelled as association lists with first-match lookup;
insertion removes every earlier binding of the key and prepends the new
one, which is extensionally the Go-map overwrite.  Go methods mutate the
receiver through a pointer, so every method is translated in explicit
state-passing style: it takes the receiver value and returns the updated
receiver next to its Go return values.  Dynamic (`interface\x7b\x7d`) values are
modelled by the inductive `Val`; a Go nil interface is `Val.vnull`, and
`reflect.TypeOf` on it yields no type (`Option` is `none`), so calling
`Kind()` there is a runtime panic, modelled by an explicit `panics`
outcome.
-/

set_option autoImplicit false

namespace Jsonhal

/-- Go-map model: first-match lookup in an association list. -/
def mapGet {α : Type} (m : List (String × α)) (k : String) : Option α :=
  match m with
  | [] => none
  | (k', v) :: rest => if k' = k then some v else mapGet rest k

/-- Go-map model: removal of every binding of `k` (`delete(m, k)`). -/
def mapDel {α : Type} (m : List (String × α)) (k : String) : List (String × α) :=
  match m with
  | [] => []
  | (k', v) :: rest => if k' = k then mapDel rest k else (k', v) :: mapDel rest k

/-- Go-map model: overwriting insertion (`m[k] = v`). -/
def mapSet {α : Type} (m : List (String × α)) (k : String) (v : α) :
    List (String × α) :=
  (k, v) :: mapDel m k

/-- `Link` from jsonhal.go: one hyperlink relation (`href`, optional `title`). -/
structure Link where
  Href : String
  Title : String
deriving DecidableEq, Repr

/-- A calendar timestamp, the model of Go `time.Time` as far as the decode
hook observes it. -/
structure DateTime where
  year : Nat
  month : Nat
  day : Nat
  hour : Nat
  minute : Nat
  second : Nat
deriving DecidableEq, Repr

/-- Dynamic values (`interface\x7b\x7d` contents): the model of what can be stored
in the `Embedded` map and fed to the decoder.  `vnull` is the Go nil
interface. -/
inductive Val where
  | vnull : Val
  | vbool : Bool → Val
  | vint : Int → Val
  | vstr : String → Val
  | vtime : DateTime → Val
  | varr : List Val → Val
  | vmap : List (String × Val) → Val
deriving Repr

/-- Target types for the structural decoder: the model of the Go
`reflect.Type` universe the claims exercise. -/
inductive Ty where
  | tInt : Ty
  | tStr : Ty
  | tBool : Ty
  | tTime : Ty
  | tStruct : List (String × Ty) → Ty
  | tAnyMap : Ty
  | tAnySlice : Ty
deriving Repr

/-- `reflect.Kind` values the envelope distinguishes. -/
inductive GoKind where
  | kBool | kInt | kString | kStruct | kSlice | kMap
deriving DecidableEq, Repr

/-- `reflect.TypeOf(v).Kind()`; `none` when `v` is the nil interface, where
`reflect.TypeOf` returns a nil `reflect.Type` and `Kind()` would panic. -/
def Val.kindOf : Val → Option GoKind
  | .vnull => none
  | .vbool _ => some .kBool
  | .vint _ => some .kInt
  | .vstr _ => some .kString
  | .vtime _ => some .kStruct
  | .varr _ => some .kSlice
  | .vmap _ => some .kMap

/-- `reflect.ValueOf(v).Len()` for the countable kinds (0 elsewhere, where
the envelope never asks). -/
def Val.goLen : Val → Nat
  | .varr xs => xs.length
  | .vmap kvs => kvs.length
  | _ => 0

/-- `reflect.TypeOf(v)` as seen by the decode hook: the dynamic type of the
source datum; `none` for the nil interface. -/
def Val.goTy : Val → Option Ty
  | .vnull => none
  | .vbool _ => some .tBool
  | .vint _ => some .tInt
  | .vstr _ => some .tStr
  | .vtime _ => some .tTime
  | .varr _ => some .tAnySlice
  | .vmap _ => some .tAnyMap

/-- Parse a list of decimal digits as a number (`none` on a non-digit). -/
def digitsToNat : List Char → Option Nat
  | [] => some 0
  | c :: cs =>
    if c.isDigit then
      match digitsToNat cs with
      | some n => some ((c.toNat - 48) * 10 ^ cs.length + n)
      | none => none
    else none

/-- Modelled from the spec: the "external temporal collaborator"
`time.Parse(time.RFC3339, s)` of the Go standard library, which is not part
of this repository.  Accepts the basic `YYYY-MM-DDTHH:MM:SSZ` exchange form
and rejects everything else with a parse error. -/
def parseRFC3339 (s : String) : Except String DateTime :=
  match s.toList with
  | [y1, y2, y3, y4, '-', m1, m2, '-', d1, d2, 'T',
     h1, h2, ':', n1, n2, ':', s1, s2, 'Z'] =>
    match digitsToNat [y1, y2, y3, y4], digitsToNat [m1, m2],
          digitsToNat [d1, d2], digitsToNat [h1, h2],
          digitsToNat [n1, n2], digitsToNat [s1, s2] with
    | some y, some mo, some d, some hh, some mi, some ss =>
      if 1 ≤ mo ∧ mo ≤ 12 ∧ 1 ≤ d ∧ d ≤ 31 ∧ hh ≤ 23 ∧ mi ≤ 59 ∧ ss ≤ 60 then
        .ok ⟨y, mo, d, hh, mi, ss⟩
      else .error ("parsing time \"" ++ s ++ "\": out of range")
    | _, _, _, _, _, _ =>
      .error ("parsing time \"" ++ s ++ "\" as RFC3339: cannot parse")
  | _ => .error ("parsing time \"" ++ s ++ "\" as RFC3339: cannot parse")

/-- `decodeHook` from jsonhal.go: when the target type is `time.Time` and the
source type is `string`, the datum is parsed with `time.Parse(time.RFC3339, _)`;
every other pair of types is passed through unchanged.  `f` is the source
datum's dynamic type (what `mapstructure` passes), `t` the target type. -/
def decodeHook (f : Option Ty) (t : Ty) (data : Val) : Except String Val :=
  match t, f with
  | .tTime, some .tStr =>
    match data with
    | .vstr s =>
      match parseRFC3339 s with
      | .ok dt => .ok (.vtime dt)
      | .error e => .error e
    | _ => .error "interface conversion: interface is not string"
  | _, _ => .ok data

mutual
/-- Go zero value of a target type (what an untouched field of a freshly
allocated decode target holds). -/
def zeroVal : Ty → Val
  | .tInt => .vint 0
  | .tStr => .vstr ""
  | .tBool => .vbool false
  | .tTime => .vtime ⟨1, 1, 1, 0, 0, 0⟩
  | .tStruct fields => .vmap (zeroFields fields)
  | .tAnyMap => .vnull
  | .tAnySlice => .vnull
termination_by t => sizeOf t

/-- Zero values of a struct's fields. -/
def zeroFields : List (String × Ty) → List (String × Val)
  | [] => []
  | (fname, fty) :: rest => (fname, zeroVal fty) :: zeroFields rest
termination_by fields => sizeOf fields
end

mutual
/-- Modelled from the spec: the "external structural decoder" collaborator
(`mapstructure`), which is not part of this repository.  Populates a target
of type `t` from the dynamic value `v`: the configured hook (`decodeHook`,
cf. `DecoderConfig` in `DecodeEmbedded`) is applied to every datum before
conversion; a mapping populates a struct field by field (unknown keys
ignored, missing keys left at their zero value); scalars must match the
target kind exactly; any other shape mismatch is an error. -/
def msDecode (t : Ty) (v : Val) : Except String Val :=
  match decodeHook v.goTy t v with
  | .error e => .error e
  | .ok v' =>
    match t, v' with
    | .tInt, .vint n => .ok (.vint n)
    | .tStr, .vstr s => .ok (.vstr s)
    | .tBool, .vbool b => .ok (.vbool b)
    | .tTime, .vtime dt => .ok (.vtime dt)
    | .tStruct fields, .vmap kvs =>
      match msDecodeFields fields kvs with
      | .ok out => .ok (.vmap out)
      | .error e => .error e
    | .tAnyMap, .vmap kvs => .ok (.vmap kvs)
    | .tAnySlice, .varr xs => .ok (.varr xs)
    | _, _ => .error "mapstructure: unconvertible source shape for target type"
termination_by sizeOf t

/-- Field-wise struct decode: each declared field is decoded from the
matching key of the source mapping, or left at its zero value. -/
def msDecodeFields (fields : List (String × Ty)) (kvs : List (String × Val)) :
    Except String (List (String × Val)) :=
  match fields with
  | [] => .ok []
  | (fname, fty) :: rest =>
    let fv : Except String Val :=
      match mapGet kvs fname with
      | some src => msDecode fty src
      | none => .ok (zeroVal fty)
    match fv with
    | .error e => .error e
    | .ok dv =>
      match msDecodeFields rest kvs with
      | .error e => .error e
      | .ok out => .ok ((fname, dv) :: out)
termination_by sizeOf fields
end

/-- The decoder handle `DecodeEmbedded` caches in `h.decoder`: a
`mapstructure.Decoder` is its `DecoderConfig`, which fixes the `Result`
target (its address, type, and whether it is a pointer) at creation time. -/
structure DecoderConfig where
  resultAddr : Nat
  resultTy : Ty
  resultIsPtr : Bool

/-- `Hal` from jsonhal.go: the envelope with its two lazily allocated maps
and the cached decoder handle (`nil` until the first `DecodeEmbedded`). -/
structure Hal where
  Links : Option (List (String × Link)) := none
  Embedded : Option (List (String × Val)) := none
  decoder : Option DecoderConfig := none

/-- A decode target as passed to `DecodeEmbedded`: a heap address, the
pointed-to type, and whether the argument really is a pointer. -/
structure TargetRef where
  addr : Nat
  ty : Ty
  isPtr : Bool

/-- The heap holding decode targets, addressed by `Nat`. -/
def Heap : Type := List (Nat × Val)

/-- Heap read. -/
def heapGet (hp : Heap) (a : Nat) : Option Val :=
  match hp with
  | [] => none
  | (a', v) :: rest => if a' = a then some v else heapGet rest a

/-- Heap write (overwriting). -/
def heapSet (hp : Heap) (a : Nat) (v : Val) : Heap :=
  (a, v) :: (hp.filter fun p => p.1 ≠ a)

/-- `SetLink` from jsonhal.go: allocates the links map if absent, then
stores `Link\x7bHref: href, Title: title\x7d` under `name`. -/
def Hal.SetLink (h : Hal) (name href title : String) : Hal :=
  match h.Links with
  | none => { h with Links := some (mapSet [] name ⟨href, title⟩) }
  | some m => { h with Links := some (mapSet m name ⟨href, title⟩) }

/-- `DeleteLink` from jsonhal.go: removes `name` when the map is allocated;
otherwise does nothing. -/
def Hal.DeleteLink (h : Hal) (name : String) : Hal :=
  match h.Links with
  | none => h
  | some m => { h with Links := some (mapDel m name) }

/-- `GetLink` from jsonhal.go: the untouched receiver next to the Go
return values; a missing map or name is the error
`Link "<name>" not found`. -/
def Hal.GetLink (h : Hal) (name : String) : Hal × Except String Link :=
  match h.Links with
  | none => (h, .error ("Link \"" ++ name ++ "\" not found"))
  | some m =>
    match mapGet m name with
    | none => (h, .error ("Link \"" ++ name ++ "\" not found"))
    | some link => (h, .ok link)

/-- `SetEmbedded` from jsonhal.go: allocates the embedded map if absent,
then stores the opaque value under `name`. -/
def Hal.SetEmbedded (h : Hal) (name : String) (embedded : Val) : Hal :=
  match h.Embedded with
  | none => { h with Embedded := some (mapSet [] name embedded) }
  | some m => { h with Embedded := some (mapSet m name embedded) }

/-- `GetEmbedded` from jsonhal.go: the untouched receiver next to the Go
return values; a missing map or name is the error
`Embedded "<name>" not found`. -/
def Hal.GetEmbedded (h : Hal) (name : String) : Hal × Except String Val :=
  match h.Embedded with
  | none => (h, .error ("Embedded \"" ++ name ++ "\" not found"))
  | some m =>
    match mapGet m name with
    | none => (h, .error ("Embedded \"" ++ name ++ "\" not found"))
    | some v => (h, .ok v)

/-- `DeleteEmbedded` from jsonhal.go: removes `name` when the map is
allocated; otherwise does nothing. -/
def Hal.DeleteEmbedded (h : Hal) (name : String) : Hal :=
  match h.Embedded with
  | none => h
  | some m => { h with Embedded := some (mapDel m name) }

/-- Outcome of `CountEmbedded`: a count, a returned error, or a runtime
panic (which aborts the process, as `CountEmbedded` installs no recover). -/
inductive CountResult where
  | ok : Nat → CountResult
  | err : String → CountResult
  | panics : CountResult
deriving DecidableEq, Repr

/-- `CountEmbedded` from jsonhal.go: looks the value up with `GetEmbedded`
(propagating its error with count 0), then takes
`reflect.TypeOf(e).Kind()` — a runtime panic when `e` is the nil
interface, since `reflect.TypeOf` then returns a nil `reflect.Type`;
a kind other than slice or map is the error
`Embedded object is not a slice or a map`; otherwise the length. -/
def Hal.CountEmbedded (h : Hal) (name : String) : Hal × CountResult :=
  match h.GetEmbedded name with
  | (h', .error e) => (h', .err e)
  | (h', .ok e) =>
    match e.kindOf with
    | none => (h', .panics)
    | some k =>
      if k ≠ GoKind.kSlice ∧ k ≠ GoKind.kMap then
        (h', .err "Embedded object is not a slice or a map")
      else (h', .ok e.goLen)

/-- `DecodeEmbedded` from jsonhal.go, with the panic/recover control flow
flattened into early error returns (every `panic(err)` is caught by the
deferred recover and returned as `err`).  The value is fetched with
`GetEmbedded`; when no decoder is cached yet, one is created over THIS
call's `result` target (`mapstructure.NewDecoder` fails on a non-pointer
result with `result must be a pointer`) and stored in `h.decoder`; the
decode then runs against the CACHED config's target, writing the decoded
value at that config's address. -/
def Hal.DecodeEmbedded (h : Hal) (hp : Heap) (name : String) (result : TargetRef) :
    Hal × Heap × Option String :=
  match h.GetEmbedded name with
  | (h', .error e) => (h', hp, some e)
  | (h', .ok e) =>
    match h'.decoder with
    | none =>
      if result.isPtr then
        let cfg : DecoderConfig := ⟨result.addr, result.ty, result.isPtr⟩
        let h'' : Hal := { h' with decoder := some cfg }
        match msDecode cfg.resultTy e with
        | .error msg => (h'', hp, some msg)
        | .ok v => (h'', heapSet hp cfg.resultAddr v, none)
      else (h', hp, some "result must be a pointer")
    | some cfg =>
      match msDecode cfg.resultTy e with
      | .error msg => (h', hp, some msg)
      | .ok v => (h', heapSet hp cfg.resultAddr v, none)

/-! ## A concrete decode scenario

The decode targets of the round-trip examples: a struct with fields
`id` and `name` (the `Foobar` shape of the repository's tests), two
mapping-shaped embedded values, and the successive `DecodeEmbedded`
calls on one envelope, each with its own fresh target. -/

/-- The `Foobar`-shaped decode target type: fields `id`, `name`. -/
def fooTy : Ty := .tStruct [("id", .tInt), ("name", .tStr)]

/-- A mapping-shaped embedded value `\x7bid: 1, name: "Foo bar 1"\x7d`. -/
def fooVal : Val := .vmap [("id", .vint 1), ("name", .vstr "Foo bar 1")]

/-- A second mapping-shaped embedded value `\x7bid: 2, name: "Bar 2"\x7d`. -/
def barVal : Val := .vmap [("id", .vint 2), ("name", .vstr "Bar 2")]

/-- An envelope holding `fooVal` under `foo` and `barVal` under `bar`. -/
def halTwoEmbedded : Hal :=
  (Hal.SetEmbedded (Hal.SetEmbedded ⟨none, none, none⟩ "foo" fooVal) "bar" barVal)

/-- First decode call: `DecodeEmbedded("foo", &t0)` with the fresh pointer
target at address 0 and an empty heap. -/
def decodeCall1 : Hal × Heap × Option String :=
  halTwoEmbedded.DecodeEmbedded [] "foo" ⟨0, fooTy, true⟩

/-- Second decode call on the same envelope: `DecodeEmbedded("bar", &t1)`
with its own fresh pointer target at address 1. -/
def decodeCall2 : Hal × Heap × Option String :=
  decodeCall1.1.DecodeEmbedded decodeCall1.2.1 "bar" ⟨1, fooTy, true⟩

/-- Third call variant on the warm envelope: `DecodeEmbedded("bar", t)`
with a non-pointer argument. -/
def decodeCall3 : Hal × Heap × Option String :=
  decodeCall1.1.DecodeEmbedded decodeCall1.2.1 "bar" ⟨1, fooTy, false⟩

/-! ## Map model lemmas -/

theorem mapGet_mapSet_self {α : Type} (m : List (String × α)) (k : String) (v : α) :
    mapGet (mapSet m k v) k = some v := by
  simp [mapSet, mapGet]

theorem mapGet_mapDel_self {α : Type} (m : List (String × α)) (k : String) :
    mapGet (mapDel m k) k = none := by
  induction m with
  | nil => simp [mapDel, mapGet]
  | cons p rest ih =>
    obtain ⟨k', v⟩ := p
    by_cases hk : k' = k <;> simp [mapDel, mapGet, hk, ih]

theorem mapGet_mapDel_ne {α : Type} (m : List (String × α)) (k k' : String)
    (hne : k' ≠ k) : mapGet (mapDel m k) k' = mapGet m k' := by
  induction m with
  | nil => simp [mapDel]
  | cons p rest ih =>
    obtain ⟨k₀, v⟩ := p
    by_cases h₀ : k₀ = k
    · simp [mapDel, mapGet, h₀, Ne.symm hne, ih]
    · simp only [mapDel, if_neg h₀, mapGet]
      by_cases h₁ : k₀ = k' <;> simp [h₁, ih]

theorem mapGet_mapSet_ne {α : Type} (m : List (String × α)) (k k' : String) (v : α)
    (hne : k' ≠ k) : mapGet (mapSet m k v) k' = mapGet m k' := by
  simp only [mapSet, mapGet, if_neg (Ne.symm hne)]
  exact mapGet_mapDel_ne m k k' hne

theorem mapDel_of_absent {α : Type} (m : List (String × α)) (k : String)
    (habs : mapGet m k = none) : mapDel m k = m := by
  induction m with
  | nil => rfl
  | cons p rest ih =>
    obtain ⟨k₀, v⟩ := p
    by_cases h₀ : k₀ = k
    · simp [mapGet, h₀] at habs
    · simp only [mapGet, if_neg h₀] at habs
      simp [mapDel, h₀, ih habs]

theorem mapDel_mapDel {α : Type} (m : List (String × α)) (k : String) :
    mapDel (mapDel m k) k = mapDel m k :=
  mapDel_of_absent _ k (mapGet_mapDel_self m k)

theorem filter_mapDel {α : Type} (m : List (String × α)) (k : String) :
    (mapDel m k).filter (fun p => p.1 = k) = [] := by
  induction m with
  | nil => rfl
  | cons p rest ih =>
    obtain ⟨k₀, v⟩ := p
    by_cases h₀ : k₀ = k <;> simp [mapDel, h₀, List.filter, ih]

theorem filter_mapSet {α : Type} (m : List (String × α)) (k : String) (v : α) :
    (mapSet m k v).filter (fun p => p.1 = k) = [(k, v)] := by
  simp [mapSet, List.filter, filter_mapDel]

/-! ## Claim theorems -/

/-- C4.  For every envelope and every name not present in the corresponding
mapping (also when that mapping was never allocated), `GetLink` returns the
error `Link "<name>" not found` and `GetEmbedded` the error
`Embedded "<name>" not found` — exactly those messages, and (the `error`
constructor carrying no value) no link respectively no value besides. -/
theorem get_notFound_message_exact (h : Hal) (name : String) :
    ((∀ m, h.Links = some m → mapGet m name = none) →
      (h.GetLink name).2 = .error ("Link \"" ++ name ++ "\" not found")) ∧
    ((∀ m, h.Embedded = some m → mapGet m name = none) →
      (h.GetEmbedded name).2 = .error ("Embedded \"" ++ name ++ "\" not found")) := by
  constructor
  · intro habs
    unfold Hal.GetLink
    cases hL : h.Links with
    | none => rfl
    | some m => simp [habs m hL]
  · intro habs
    unfold Hal.GetEmbedded
    cases hE : h.Embedded with
    | none => rfl
    | some m => simp [habs m hE]

/-- Witness for C4 at the fresh envelope and the name `self`. -/
theorem get_notFound_message_exact_witness :
    ((Hal.GetLink ⟨none, none, none⟩ "self").2 =
      .error ("Link \"" ++ "self" ++ "\" not found")) ∧
    ((Hal.GetEmbedded ⟨none, none, none⟩ "self").2 =
      .error ("Embedded \"" ++ "self" ++ "\" not found")) :=
  ⟨(get_notFound_message_exact ⟨none, none, none⟩ "self").1
      (fun _m hm => nomatch hm),
   (get_notFound_message_exact ⟨none, none, none⟩ "self").2
      (fun _m hm => nomatch hm)⟩

/-- After `SetLink name href title`, `GetLink name` returns `⟨href, title⟩`. -/
theorem setLink_getLink_aux (h : Hal) (name href title : String) :
    ((h.SetLink name href title).GetLink name).2 = .ok ⟨href, title⟩ := by
  obtain ⟨L, E, D⟩ := h
  cases L <;> simp [Hal.SetLink, Hal.GetLink, mapGet_mapSet_self]

/-- C5.  For every envelope and all strings `name`, `href`, `title`:
immediately after `SetLink name href title`, `GetLink name` returns the
link `⟨href, title⟩` with no error. -/
theorem setLink_getLink_roundtrip (h : Hal) (name href title : String) :
    ((h.SetLink name href title).GetLink name).2 = .ok ⟨href, title⟩ :=
  setLink_getLink_aux h name href title

/-- After `SetEmbedded name v`, `GetEmbedded name` returns `v`. -/
theorem setEmbedded_getEmbedded_roundtrip (h : Hal) (name : String) (v : Val) :
    ((h.SetEmbedded name v).GetEmbedded name).2 = .ok v := by
  obtain ⟨L, E, D⟩ := h
  cases E <;> simp [Hal.SetEmbedded, Hal.GetEmbedded, mapGet_mapSet_self]

/-- After `SetLink name _ _`, `name` occurs exactly once in the links map. -/
theorem setLink_unique_entry (h : Hal) (name href title : String) :
    ((h.SetLink name href title).Links.getD []).filter (fun p => p.1 = name) =
      [(name, ⟨href, title⟩)] := by
  obtain ⟨L, E, D⟩ := h
  cases L <;> simp [Hal.SetLink, filter_mapSet]

/-- After `SetEmbedded name _`, `name` occurs exactly once in the embedded
map. -/
theorem setEmbedded_unique_entry (h : Hal) (name : String) (v : Val) :
    ((h.SetEmbedded name v).Embedded.getD []).filter (fun p => p.1 = name) =
      [(name, v)] := by
  obtain ⟨L, E, D⟩ := h
  cases E <;> simp [Hal.SetEmbedded, filter_mapSet]

/-- C6.  After two `SetLink` calls under the same name with distinct hrefs
(and likewise two `SetEmbedded` calls with distinct values), only the
second value is retrievable, and the name occurs exactly once in its
mapping. -/
theorem set_overwrite_second_wins (h : Hal)
    (name href₁ title₁ href₂ title₂ : String) (v₁ v₂ : Val)
    (hhref : href₁ ≠ href₂) (hv : v₁ ≠ v₂) :
    (((h.SetLink name href₁ title₁).SetLink name href₂ title₂).GetLink name).2 =
        .ok ⟨href₂, title₂⟩ ∧
    (((h.SetLink name href₁ title₁).SetLink name href₂ title₂).GetLink name).2 ≠
        .ok ⟨href₁, title₁⟩ ∧
    (((h.SetLink name href₁ title₁).SetLink name href₂ title₂).Links.getD []).filter
        (fun p => p.1 = name) = [(name, ⟨href₂, title₂⟩)] ∧
    (((h.SetEmbedded name v₁).SetEmbedded name v₂).GetEmbedded name).2 = .ok v₂ ∧
    (((h.SetEmbedded name v₁).SetEmbedded name v₂).GetEmbedded name).2 ≠ .ok v₁ ∧
    (((h.SetEmbedded name v₁).SetEmbedded name v₂).Embedded.getD []).filter
        (fun p => p.1 = name) = [(name, v₂)] := by
  have hget : (((h.SetLink name href₁ title₁).SetLink name href₂ title₂).GetLink name).2 =
      .ok ⟨href₂, title₂⟩ := setLink_getLink_aux _ name href₂ title₂
  have hgetE : (((h.SetEmbedded name v₁).SetEmbedded name v₂).GetEmbedded name).2 =
      .ok v₂ := setEmbedded_getEmbedded_roundtrip _ name v₂
  refine ⟨hget, ?_, setLink_unique_entry _ name href₂ title₂, hgetE, ?_,
    setEmbedded_unique_entry _ name v₂⟩
  · rw [hget]
    intro hc
    exact hhref (congrArg Link.Href (Except.ok.inj hc)).symm
  · rw [hgetE]
    intro hc
    exact hv (Except.ok.inj hc).symm

/-- Witness for C6 at the fresh envelope, name `a`, hrefs `h1`/`h2` and
values `vint 1`/`vint 2`. -/
theorem set_overwrite_second_wins_witness :
    ((((⟨none, none, none⟩ : Hal).SetLink "a" "h1" "").SetLink "a" "h2" "").GetLink
        "a").2 = .ok ⟨"h2", ""⟩ ∧
    ((((⟨none, none, none⟩ : Hal).SetLink "a" "h1" "").SetLink "a" "h2" "").GetLink
        "a").2 ≠ .ok ⟨"h1", ""⟩ ∧
    ((((⟨none, none, none⟩ : Hal).SetLink "a" "h1" "").SetLink "a" "h2" "").Links.getD
        []).filter (fun p => p.1 = "a") = [("a", ⟨"h2", ""⟩)] ∧
    ((((⟨none, none, none⟩ : Hal).SetEmbedded "a" (.vint 1)).SetEmbedded "a"
        (.vint 2)).GetEmbedded "a").2 = .ok (.vint 2) ∧
    ((((⟨none, none, none⟩ : Hal).SetEmbedded "a" (.vint 1)).SetEmbedded "a"
        (.vint 2)).GetEmbedded "a").2 ≠ .ok (.vint 1) ∧
    ((((⟨none, none, none⟩ : Hal).SetEmbedded "a" (.vint 1)).SetEmbedded "a"
        (.vint 2)).Embedded.getD []).filter (fun p => p.1 = "a") =
        [("a", .vint 2)] :=
  set_overwrite_second_wins ⟨none, none, none⟩ "a" "h1" "" "h2" ""
    (.vint 1) (.vint 2) (by decide) (by simp)

/-- C7.  Deleting an absent name (also with the mapping never allocated)
leaves the envelope unchanged — `DeleteLink`/`DeleteEmbedded` return no
error by type — and the immediately following second delete of the same
name is again a no-op. -/
theorem delete_absent_noop_idempotent (h : Hal) (name : String)
    (hL : ∀ m, h.Links = some m → mapGet m name = none)
    (hE : ∀ m, h.Embedded = some m → mapGet m name = none) :
    h.DeleteLink name = h ∧
    (h.DeleteLink name).DeleteLink name = h.DeleteLink name ∧
    h.DeleteEmbedded name = h ∧
    (h.DeleteEmbedded name).DeleteEmbedded name = h.DeleteEmbedded name := by
  obtain ⟨L, E, D⟩ := h
  have hdl : Hal.DeleteLink ⟨L, E, D⟩ name = ⟨L, E, D⟩ := by
    cases L with
    | none => rfl
    | some m => simp [Hal.DeleteLink, mapDel_of_absent m name (hL m rfl)]
  have hde : Hal.DeleteEmbedded ⟨L, E, D⟩ name = ⟨L, E, D⟩ := by
    cases E with
    | none => rfl
    | some m => simp [Hal.DeleteEmbedded, mapDel_of_absent m name (hE m rfl)]
  exact ⟨hdl, by rw [hdl]; exact hdl, hde, by rw [hde]; exact hde⟩

/-- Witness for C7 at the fresh envelope and the name `x`. -/
theorem delete_absent_noop_idempotent_witness :
    Hal.DeleteLink ⟨none, none, none⟩ "x" = (⟨none, none, none⟩ : Hal) ∧
    (Hal.DeleteLink ⟨none, none, none⟩ "x").DeleteLink "x" =
      Hal.DeleteLink ⟨none, none, none⟩ "x" ∧
    Hal.DeleteEmbedded ⟨none, none, none⟩ "x" = (⟨none, none, none⟩ : Hal) ∧
    (Hal.DeleteEmbedded ⟨none, none, none⟩ "x").DeleteEmbedded "x" =
      Hal.DeleteEmbedded ⟨none, none, none⟩ "x" :=
  delete_absent_noop_idempotent ⟨none, none, none⟩ "x"
    (fun _m hm => nomatch hm) (fun _m hm => nomatch hm)

/-- The `InvalidShape` message of `CountEmbedded` differs from every
`NotFound` message of `GetEmbedded`: their tenth characters differ
(`o` against `"`), whatever the looked-up name. -/
theorem invalidShape_ne_notFound (name : String) :
    "Embedded object is not a slice or a map" ≠
      "Embedded \"" ++ (name ++ "\" not found") := by
  intro heq
  have h9 := congrArg (fun s => s.data[9]?) heq
  simp only [String.data_append] at h9
  rw [List.getElem?_append_left (by decide)] at h9
  revert h9
  decide

/-- `CountEmbedded` in terms of the `GetEmbedded` result. -/
theorem countEmbedded_eq (h : Hal) (name : String) :
    (h.CountEmbedded name).2 =
      match (h.GetEmbedded name).2 with
      | .error e => .err e
      | .ok v =>
        match v.kindOf with
        | none => .panics
        | some k =>
          if k ≠ GoKind.kSlice ∧ k ≠ GoKind.kMap then
            .err "Embedded object is not a slice or a map"
          else .ok v.goLen := by
  unfold Hal.CountEmbedded
  rcases h.GetEmbedded name with ⟨h', r⟩
  cases r with
  | error e => rfl
  | ok v =>
    cases hk : v.kindOf with
    | none => simp [hk]
    | some k => by_cases hsm : k ≠ GoKind.kSlice ∧ k ≠ GoKind.kMap <;> simp [hk, hsm]

/-- C3 counterexample.  The claim quantifies over every stored value that
is neither a sequence nor a mapping; the stored nil interface is such a
value, yet `CountEmbedded` panics on it instead of returning an
`InvalidShape` error. -/
theorem countEmbedded_nil_not_invalidShape :
    (Hal.CountEmbedded (Hal.SetEmbedded ⟨none, none, none⟩ "x" .vnull) "x").2 =
      CountResult.panics ∧
    ¬ ∃ msg,
      (Hal.CountEmbedded (Hal.SetEmbedded ⟨none, none, none⟩ "x" .vnull) "x").2 =
        CountResult.err msg := by
  refine ⟨rfl, ?_⟩
  rintro ⟨msg, hmsg⟩
  rw [show (Hal.CountEmbedded (Hal.SetEmbedded ⟨none, none, none⟩ "x" .vnull)
        "x").2 = CountResult.panics from rfl] at hmsg
  exact CountResult.noConfusion hmsg

/-- C3 (amended).  For every envelope: a stored sequence or mapping is
counted with no error; a stored non-nil value of any other kind yields the
`InvalidShape` error `Embedded object is not a slice or a map`, which
differs from every `NotFound` message; an absent name (or unallocated
mapping) fails with exactly the `GetEmbedded` error; a stored nil
interface, however, panics (see the counterexample). -/
theorem countEmbedded_cases (h : Hal) (name : String) :
    (∀ xs, (h.GetEmbedded name).2 = .ok (.varr xs) →
      (h.CountEmbedded name).2 = .ok xs.length) ∧
    (∀ kvs, (h.GetEmbedded name).2 = .ok (.vmap kvs) →
      (h.CountEmbedded name).2 = .ok kvs.length) ∧
    (∀ v, (h.GetEmbedded name).2 = .ok v → v.kindOf ≠ none →
      v.kindOf ≠ some .kSlice → v.kindOf ≠ some .kMap →
      (h.CountEmbedded name).2 = .err "Embedded object is not a slice or a map") ∧
    (∀ e, (h.GetEmbedded name).2 = .error e → (h.CountEmbedded name).2 = .err e) ∧
    "Embedded object is not a slice or a map" ≠
      "Embedded \"" ++ (name ++ "\" not found") := by
  refine ⟨?_, ?_, ?_, ?_, invalidShape_ne_notFound name⟩
  · intro xs hr
    rw [countEmbedded_eq, hr]
    simp [Val.kindOf, Val.goLen]
  · intro kvs hr
    rw [countEmbedded_eq, hr]
    simp [Val.kindOf, Val.goLen]
  · intro v hr hnn hns hnm
    rw [countEmbedded_eq, hr]
    cases hk : v.kindOf with
    | none => exact absurd hk hnn
    | some k =>
      have hks : k ≠ GoKind.kSlice := fun hc => hns (hc ▸ hk)
      have hkm : k ≠ GoKind.kMap := fun hc => hnm (hc ▸ hk)
      simp [hk, hks, hkm]
  · intro e hr
    rw [countEmbedded_eq, hr]

/-- Witness for C3 at an envelope holding a two-element sequence under
`xs`, a scalar under `s`, and nothing under `missing`. -/
theorem countEmbedded_cases_witness :
    (Hal.CountEmbedded
      (Hal.SetEmbedded ⟨none, none, none⟩ "xs" (.varr [.vint 1, .vint 2]))
      "xs").2 = .ok 2 ∧
    (Hal.CountEmbedded (Hal.SetEmbedded ⟨none, none, none⟩ "s" (.vint 7))
      "s").2 = .err "Embedded object is not a slice or a map" ∧
    (Hal.CountEmbedded (⟨none, none, none⟩ : Hal) "missing").2 =
      .err ("Embedded \"" ++ ("missing" ++ "\" not found")) ∧
    "Embedded object is not a slice or a map" ≠
      "Embedded \"" ++ ("missing" ++ "\" not found") := by
  refine ⟨?_, ?_, ?_,
    (countEmbedded_cases ⟨none, none, none⟩ "missing").2.2.2.2⟩
  · exact (countEmbedded_cases _ "xs").1 [.vint 1, .vint 2] rfl
  · exact (countEmbedded_cases _ "s").2.2.1 (.vint 7) rfl
      (by simp [Val.kindOf]) (by simp [Val.kindOf]) (by simp [Val.kindOf])
  · exact (countEmbedded_cases _ "missing").2.2.2.1
      ("Embedded \"" ++ ("missing" ++ "\" not found")) rfl

/-- C2 (code bug).  The claim promises that `CountEmbedded` returns
`(0, error)` rather than panicking for every stored embedded value,
including a stored nil value; but on the stored nil interface
`reflect.TypeOf` yields a nil `reflect.Type` and `Kind()` dereferences it:
the call panics with no recover in scope. -/
theorem countEmbedded_stored_nil_panics :
    (Hal.CountEmbedded (Hal.SetEmbedded ⟨none, none, none⟩ "nilres" .vnull)
      "nilres").2 = CountResult.panics := rfl

/-- C1 (code bug).  The first `DecodeEmbedded` call populates its own
target (address 0) with the stored field values and returns no error; the
second call on the same envelope, with its own fresh target at address 1,
also returns no error but leaves that target untouched — the cached
decoder writes the second value over the FIRST call's target instead. -/
theorem decodeEmbedded_second_call_misdirected :
    decodeCall1.2.2 = none ∧
    heapGet decodeCall1.2.1 0 =
      some (.vmap [("id", .vint 1), ("name", .vstr "Foo bar 1")]) ∧
    decodeCall2.2.2 = none ∧
    heapGet decodeCall2.2.1 1 = none ∧
    heapGet decodeCall2.2.1 0 =
      some (.vmap [("id", .vint 2), ("name", .vstr "Bar 2")]) := by
  have hfoo : msDecode fooTy fooVal =
      .ok (.vmap [("id", .vint 1), ("name", .vstr "Foo bar 1")]) := by
    simp [fooTy, fooVal, msDecode, msDecodeFields, decodeHook, Val.goTy, mapGet]
  have hbar : msDecode fooTy barVal =
      .ok (.vmap [("id", .vint 2), ("name", .vstr "Bar 2")]) := by
    simp [fooTy, barVal, msDecode, msDecodeFields, decodeHook, Val.goTy, mapGet]
  have hc1 : decodeCall1 =
      ({ halTwoEmbedded with decoder := some ⟨0, fooTy, true⟩ },
        [(0, .vmap [("id", .vint 1), ("name", .vstr "Foo bar 1")])], none) := by
    simp [decodeCall1, Hal.DecodeEmbedded, halTwoEmbedded, Hal.SetEmbedded,
      Hal.GetEmbedded, mapGet, mapSet, mapDel, hfoo, heapSet]
  have hc2 : decodeCall2 =
      ({ halTwoEmbedded with decoder := some ⟨0, fooTy, true⟩ },
        [(0, .vmap [("id", .vint 2), ("name", .vstr "Bar 2")])], none) := by
    simp [decodeCall2, hc1, Hal.DecodeEmbedded, halTwoEmbedded, Hal.SetEmbedded,
      Hal.GetEmbedded, mapGet, mapSet, mapDel, hbar, heapSet]
  refine ⟨by rw [hc1], by rw [hc1]; rfl, by rw [hc2], by rw [hc2]; rfl,
    by rw [hc2]; rfl⟩

/-- C8 (code bug).  On a cold envelope the claim holds: an absent name is
`NotFound` and a non-pointer target is rejected by decoder creation; but
once a decoder has been cached by an earlier call, the very same
non-pointer call returns no error at all (its target, address 1, is never
written), instead of the claimed `DecodeError`. -/
theorem decodeEmbedded_cached_skips_target_validation :
    (Hal.DecodeEmbedded halTwoEmbedded [] "bar" ⟨1, fooTy, false⟩).2.2 =
      some "result must be a pointer" ∧
    (Hal.DecodeEmbedded halTwoEmbedded [] "missing" ⟨0, fooTy, true⟩).2.2 =
      some ("Embedded \"" ++ ("missing" ++ "\" not found")) ∧
    decodeCall3.2.2 = none ∧
    heapGet decodeCall3.2.1 1 = none := by
  have hbar : msDecode fooTy barVal =
      .ok (.vmap [("id", .vint 2), ("name", .vstr "Bar 2")]) := by
    simp [fooTy, barVal, msDecode, msDecodeFields, decodeHook, Val.goTy, mapGet]
  have hfoo : msDecode fooTy fooVal =
      .ok (.vmap [("id", .vint 1), ("name", .vstr "Foo bar 1")]) := by
    simp [fooTy, fooVal, msDecode, msDecodeFields, decodeHook, Val.goTy, mapGet]
  have hc1 : decodeCall1 =
      ({ halTwoEmbedded with decoder := some ⟨0, fooTy, true⟩ },
        [(0, .vmap [("id", .vint 1), ("name", .vstr "Foo bar 1")])], none) := by
    simp [decodeCall1, Hal.DecodeEmbedded, halTwoEmbedded, Hal.SetEmbedded,
      Hal.GetEmbedded, mapGet, mapSet, mapDel, hfoo, heapSet]
  have hc3 : decodeCall3 =
      ({ halTwoEmbedded with decoder := some ⟨0, fooTy, true⟩ },
        [(0, .vmap [("id", .vint 2), ("name", .vstr "Bar 2")])], none) := by
    simp [decodeCall3, hc1, Hal.DecodeEmbedded, halTwoEmbedded, Hal.SetEmbedded,
      Hal.GetEmbedded, mapGet, mapSet, mapDel, hbar, heapSet]
  refine ⟨?_, ?_, by rw [hc3], by rw [hc3]; rfl⟩
  · simp [Hal.DecodeEmbedded, halTwoEmbedded, Hal.SetEmbedded, Hal.GetEmbedded,
      mapGet, mapSet, mapDel]
  · simp [Hal.DecodeEmbedded, halTwoEmbedded, Hal.SetEmbedded, Hal.GetEmbedded,
      mapGet, mapSet, mapDel]

/-- C9.  A decode whose target expects a temporal value (`time.Time`) and
whose source is a string parses it with the RFC 3339 layout into the
temporal value; the hook passes every datum whose target is not temporal
or whose source is not a string through unconverted. -/
theorem decodeHook_time_parsing :
    (∀ s dt, parseRFC3339 s = .ok dt →
      msDecode Ty.tTime (Val.vstr s) = .ok (.vtime dt)) ∧
    (∀ (d : Val) (t : Ty), ¬(t = Ty.tTime ∧ d.goTy = some Ty.tStr) →
      decodeHook d.goTy t d = .ok d) := by
  constructor
  · intro s dt hp
    simp [msDecode, decodeHook, Val.goTy, hp]
  · intro d t hnot
    cases t <;> try rfl
    cases d <;> try rfl
    exact absurd ⟨rfl, rfl⟩ hnot

/-- Witness for C9 at the timestamp `2024-01-02T03:04:05Z` and the
non-temporal datum `vint 7`. -/
theorem decodeHook_time_parsing_witness :
    parseRFC3339 "2024-01-02T03:04:05Z" = .ok ⟨2024, 1, 2, 3, 4, 5⟩ ∧
    msDecode Ty.tTime (Val.vstr "2024-01-02T03:04:05Z") =
      .ok (.vtime ⟨2024, 1, 2, 3, 4, 5⟩) ∧
    decodeHook (Val.vint 7).goTy Ty.tInt (Val.vint 7) = .ok (Val.vint 7) :=
  ⟨by rfl,
   decodeHook_time_parsing.1 "2024-01-02T03:04:05Z" ⟨2024, 1, 2, 3, 4, 5⟩ (by rfl),
   decodeHook_time_parsing.2 (Val.vint 7) Ty.tInt
     (by rintro ⟨h1, _h2⟩; exact Ty.noConfusion h1)⟩

/-- C10.  Frame conditions: `GetLink`, `GetEmbedded` and `CountEmbedded`
return the receiver unchanged (in particular they never allocate a mapping
on a fresh envelope); `SetLink` and `DeleteLink` leave the embedded mapping
unchanged; `SetEmbedded` and `DeleteEmbedded` leave the links mapping
unchanged. -/
theorem readers_preserve_state_frame (h : Hal) (name href title : String) (v : Val) :
    (h.GetLink name).1 = h ∧
    (h.GetEmbedded name).1 = h ∧
    (h.CountEmbedded name).1 = h ∧
    (h.SetLink name href title).Embedded = h.Embedded ∧
    (h.DeleteLink name).Embedded = h.Embedded ∧
    (h.SetEmbedded name v).Links = h.Links ∧
    (h.DeleteEmbedded name).Links = h.Links := by
  have hgl : (h.GetLink name).1 = h := by
    obtain ⟨L, E, D⟩ := h
    cases L with
    | none => rfl
    | some m => cases hm : mapGet m name <;> simp [Hal.GetLink, hm]
  have hge : (h.GetEmbedded name).1 = h := by
    obtain ⟨L, E, D⟩ := h
    cases E with
    | none => rfl
    | some m => cases hm : mapGet m name <;> simp [Hal.GetEmbedded, hm]
  have hce : (h.CountEmbedded name).1 = h := by
    unfold Hal.CountEmbedded
    rcases hg : h.GetEmbedded name with ⟨h', r⟩
    have hh' : h' = h := by
      have := congrArg Prod.fst hg
      simpa [hge] using this.symm
    cases r with
    | error e => simpa using hh'
    | ok e =>
      cases hk : e.kindOf with
      | none => simpa [hk] using hh'
      | some k =>
        by_cases hsm : k ≠ GoKind.kSlice ∧ k ≠ GoKind.kMap <;>
          simp [hk, hsm, hh']
  refine ⟨hgl, hge, hce, ?_, ?_, ?_, ?_⟩ <;> obtain ⟨L, E, D⟩ := h
  · cases L <;> rfl
  · cases L <;> rfl
  · cases E <;> rfl
  · cases E <;> rfl

end Jsonhal
